import Mathlib

/-!
# Verification of the ICBO-Cloud-Scheduling plotting scripts

A shallow embedding of the data-handling logic of the repository's four
Python scripts (`plot_convergence.py`, `plot_sensitivity.py`,
`plot_sensitivity_simple.py`, `plot_paper_figures.py`), together with
theorems settling the specification claims about them.

Modelling conventions:
* CSV rows are Lean structures; real-valued columns are modelled as `ℚ`
  (the scripts only move values around and take exact means, so exact
  rational arithmetic is the right abstraction of the float pipeline).
* A Python function that can raise is modelled in `Except`; a raised
  exception is `Except.error`.
* The filesystem seen through `glob` is modelled as the list of matched
  files (name stem together with parsed CSV content), in glob order.
* `pandas` reductions (`groupby(...).mean()`, `pivot`, `sort_values`,
  `between`, `max(files, key=getctime)`) are embedded by executable Lean
  functions mirroring their documented behaviour on the shapes used here.
-/

deriving instance DecidableEq for Except

namespace ICBO

/-- One data row of a convergence CSV file: columns `Iteration`, `BestFitness`. -/
structure ConvRow where
  iteration : Int
  fitness : Rat
deriving DecidableEq, Repr

/-- One in-memory convergence record after loading: `Iteration`, `BestFitness`
and the `Seed` column added by `load_convergence_data` from the file name. -/
structure ConvRecord where
  iteration : Int
  fitness : Rat
  seed : Int
deriving DecidableEq, Repr

/-- Checker for the digit part of a Python decimal integer literal, after the
first digit has been consumed: digits with single underscores allowed only
between digits (`int("1_2")` is legal, `int("1__2")`, `int("1_")` are not). -/
def digitsCore : List Char → Bool
  | [] => true
  | '_' :: c :: rest => c.isDigit && digitsCore rest
  | '_' :: [] => false
  | c :: rest => c.isDigit && digitsCore rest

/-- A nonempty digit string with legal underscore separators, as accepted by
Python `int()` after sign and whitespace handling. -/
def digitsOk : List Char → Bool
  | [] => false
  | c :: rest => c.isDigit && digitsCore rest

/-- Numeric value of a digit string, skipping underscore separators. -/
def digitsVal (cs : List Char) : Nat :=
  cs.foldl (fun acc c => if c = '_' then acc else acc * 10 + (c.toNat - '0'.toNat)) 0

/-- Whitespace characters stripped by Python `int()` before parsing. -/
def isPyWs (c : Char) : Bool :=
  c = ' ' || c = '\t' || c = '\n' || c = '\r' || c = '\x0b' || c = '\x0c'

/-- Strip leading and trailing whitespace from a character list. -/
def trimChars (cs : List Char) : List Char :=
  ((cs.dropWhile isPyWs).reverse.dropWhile isPyWs).reverse

/-- Model of Python `int(s)` for a decimal string: optional surrounding
whitespace, optional single `+`/`-` sign, then digits with optional single
underscore separators.  `none` models the `ValueError` raised by `int()`.
(ASCII digits and whitespace; the unicode variants Python additionally
accepts never occur in the file names at issue.) -/
def pyInt (s : String) : Option Int :=
  match trimChars s.toList with
  | '+' :: rest => if digitsOk rest then some (digitsVal rest) else none
  | '-' :: rest => if digitsOk rest then some (-(digitsVal rest : Int)) else none
  | cs => if digitsOk cs then some (digitsVal cs) else none

/-- The suffix of `cs` after the last occurrence of the pattern `pat`, or
`none` when `pat` does not occur in `cs`. -/
def afterLast (pat : List Char) : List Char → Option (List Char)
  | [] => if pat = [] then some [] else none
  | c :: rest =>
    match afterLast pat rest with
    | some r => some r
    | none => if pat.isPrefixOf (c :: rest) then some ((c :: rest).drop pat.length) else none

/-- `file.stem.split('seed')[-1]`: the last chunk of the split, i.e. the
suffix after the last occurrence of `"seed"` (the whole stem when `"seed"`
does not occur; `"seed"` cannot overlap itself, so Python's left-to-right
non-overlapping split ends exactly there). -/
def lastSeedChunk (stem : String) : String :=
  ⟨(afterLast "seed".toList stem.toList).getD stem.toList⟩

/-- `int(file.stem.split('seed')[-1])` from `load_convergence_data`: the part
of the file stem after the last occurrence of `"seed"`, parsed by `int()`. -/
def seedOfStem (stem : String) : Option Int :=
  pyInt (lastSeedChunk stem)

/-- The loop body of `load_convergence_data`: for each matched file (stem and
parsed CSV rows, in glob order) parse the seed from the name, tag every row
with it, and concatenate.  An unparsable seed raises `ValueError`. -/
def tagFiles : List (String × List ConvRow) → Except String (List ConvRecord)
  | [] => .ok []
  | f :: fs =>
    match seedOfStem f.1 with
    | none => .error "ValueError: invalid literal for int() with base 10"
    | some s =>
      match tagFiles fs with
      | .error e => .error e
      | .ok rest => .ok (f.2.map (fun r => ⟨r.iteration, r.fitness, s⟩) ++ rest)

/-- `ConvergencePlotter.load_convergence_data`: given the files matching
`convergence_<Algorithm>_<Scale>_seed*.csv`, return `None` (here `ok none`)
when no files match, otherwise the concatenation of all rows tagged with the
per-file seed; a bad seed suffix raises (here `error`). -/
def loadConvergenceData (files : List (String × List ConvRow)) :
    Except String (Option (List ConvRecord)) :=
  match files with
  | [] => .ok none
  | f :: fs => (tagFiles (f :: fs)).map some

/-! ## `groupby('Iteration')['BestFitness'].mean()`

`pandas.groupby` groups by the sorted distinct key values; the scripts then
take the per-group mean.  We embed the sorted distinct keys by insertion
into a strictly sorted list. -/

/-- Insert a value into a strictly sorted list, keeping it sorted and
duplicate-free. -/
def insUnique [LinearOrder α] (x : α) : List α → List α
  | [] => [x]
  | y :: ys => if x < y then x :: y :: ys else if x = y then y :: ys else y :: insUnique x ys

/-- The sorted list of distinct values of `l` (the group keys of a pandas
`groupby`, or the row/column labels of a pandas `pivot`). -/
def sortedUnique [LinearOrder α] (l : List α) : List α :=
  l.foldr insUnique []

/-- The sorted distinct `Iteration` values of a loaded convergence table. -/
def iterationsOf (data : List ConvRecord) : List Int :=
  sortedUnique (data.map (·.iteration))

/-- The `BestFitness` values of the rows with the given `Iteration`. -/
def fitnessAt (data : List ConvRecord) (i : Int) : List Rat :=
  (data.filter (fun r => decide (r.iteration = i))).map (·.fitness)

/-- The mean `BestFitness` over all rows (seeds) with the given `Iteration`:
one entry of `data.groupby('Iteration')['BestFitness'].mean()`. -/
def meanAt (data : List ConvRecord) (i : Int) : Rat :=
  let vs := fitnessAt data i
  vs.sum / vs.length

/-- The per-iteration mean series `mean_data` of
`generate_convergence_report`, indexed by sorted distinct iteration. -/
def meanSeries (data : List ConvRecord) : List Rat :=
  (iterationsOf data).map (meanAt data)

/-- `initial = mean_data.iloc[0]`.  (`iloc[0]` on an empty series raises; the
default `0` is never exercised since the report only reaches this point with
a loaded, nonempty table, and all theorems assume `data ≠ []`.) -/
def initialMean (data : List ConvRecord) : Rat :=
  (meanSeries data).headD 0

/-- `final = mean_data.iloc[-1]`. -/
def finalMean (data : List ConvRecord) : Rat :=
  (meanSeries data).getLastD 0

/-- `improvement = (initial - final) / initial * 100`. -/
def improvementPct (data : List ConvRecord) : Rat :=
  (initialMean data - finalMean data) / initialMean data * 100

/-- `half_point = len(mean_data) // 2`. -/
def halfPoint (data : List ConvRecord) : Nat :=
  (meanSeries data).length / 2

/-- `half_improvement = (initial - mean_data.iloc[half_point]) / (initial - final) * 100`.
The division carries no guard in the source; in this exact model a zero
denominator yields `0` (ℚ division), so the value is meaningful only under
`initialMean ≠ finalMean`. -/
def halfImprovementPct (data : List ConvRecord) : Rat :=
  (initialMean data - (meanSeries data).getD (halfPoint data) 0) /
    (initialMean data - finalMean data) * 100

/-! ## Fixed-point rendering (`f"{x:.2f}"`) -/

/-- Two-digit zero-padded rendering of a value below 100. -/
def pad2 (n : Nat) : String :=
  if n < 10 then "0" ++ toString n else toString n

/-- `f"{q:.2f}"`: round to two decimal places and render.  The model rounds
the exact rational; the claims only evaluate it at exactly representable
values, where every rounding convention agrees. -/
def fmt2 (q : Rat) : String :=
  let n : Int := round (q * 100)
  let sign := if n < 0 then "-" else ""
  sign ++ toString (n.natAbs / 100) ++ "." ++ pad2 (n.natAbs % 100)

/-- `f"{q:.2f}%"`: a percentage cell of the convergence report. -/
def fmtPct2 (q : Rat) : String :=
  fmt2 q ++ "%"

/-- One row of the report table of `generate_convergence_report`:
`| algorithm | initial | final | improvement% | half_improvement% |`. -/
def reportRow (alg : String) (data : List ConvRecord) : String :=
  "| " ++ alg ++ " | " ++ fmt2 (initialMean data) ++ " | " ++ fmt2 (finalMean data) ++
    " | " ++ fmtPct2 (improvementPct data) ++ " | " ++ fmtPct2 (halfImprovementPct data) ++ " |"

/-! ## The three consumers of `load_convergence_data`

The filesystem is a map `fs` from algorithm name to the files matching
`convergence_<Algorithm>_<Scale>_seed*.csv` (the scale is fixed per run).
Figures are modelled by the data series they draw. -/

/-- `plot_single_algorithm`: returns without producing a figure when the
loader returns `None`; otherwise draws the per-seed curves plus the mean
curve (the figure is modelled by its mean series, which also determines the
±1-std band's center). -/
def plotSingleAlgorithm (fs : String → List (String × List ConvRow)) (alg : String) :
    Except String (Option (String × List (Int × Rat))) :=
  match loadConvergenceData (fs alg) with
  | .error e => .error e
  | .ok none => .ok none
  | .ok (some data) => .ok (some (alg, (iterationsOf data).map fun i => (i, meanAt data i)))

/-- `plot_comparison`: one mean curve (with band) per algorithm whose data
loads; algorithms whose loader returns `None` are skipped with `continue`. -/
def comparisonElems (fs : String → List (String × List ConvRow)) :
    List String → Except String (List (String × List (Int × Rat)))
  | [] => .ok []
  | a :: rest =>
    match loadConvergenceData (fs a) with
    | .error e => .error e
    | .ok none => comparisonElems fs rest
    | .ok (some data) =>
      (comparisonElems fs rest).map
        (((a, (iterationsOf data).map fun i => (i, meanAt data i))) :: ·)

/-- The table rows of `generate_convergence_report`, tagged with the
algorithm they describe; algorithms whose loader returns `None` are skipped
with `continue` and contribute no row. -/
def reportRows (fs : String → List (String × List ConvRow)) :
    List String → Except String (List (String × String))
  | [] => .ok []
  | a :: rest =>
    match loadConvergenceData (fs a) with
    | .error e => .error e
    | .ok none => reportRows fs rest
    | .ok (some data) => (reportRows fs rest).map ((a, reportRow a data) :: ·)

/-! ## Sensitivity table (`plot_sensitivity.py`, `plot_sensitivity_simple.py`) -/

/-- One row of a `sensitivity_results_*.csv` file. -/
structure SensRow where
  k : Int
  lam : Rat
  meanMakespan : Rat
  stdMakespan : Rat
  cv : Rat
  minMakespan : Rat
  maxMakespan : Rat
deriving DecidableEq, Repr

/-- The cell of the pandas pivot at row label `l` (a λ value) and column
label `kk` (a k value): the metric of the unique source row with that (λ, k)
pair, or `none` (pandas `NaN`) when no source row has the pair. -/
def pivotCell (rows : List SensRow) (metric : SensRow → Rat) (l : Rat) (kk : Int) :
    Option Rat :=
  (rows.find? (fun r => decide (r.lam = l) && decide (r.k = kk))).map metric

/-- `data.pivot(index='lambda', columns='k', values=metric)` as called by
`plot_heatmap` and `plot_sensitivity_heatmap`: row labels are the sorted
distinct λ values, column labels the sorted distinct k values; a duplicated
(λ, k) pair raises `ValueError` ("Index contains duplicate entries, cannot
reshape"). -/
def pivot (rows : List SensRow) (metric : SensRow → Rat) :
    Except String (List (Rat × List (Int × Option Rat))) :=
  if (rows.map fun r => (r.lam, r.k)).Nodup then
    .ok ((sortedUnique (rows.map (·.lam))).map fun l =>
      (l, (sortedUnique (rows.map (·.k))).map fun kk => (kk, pivotCell rows metric l kk)))
  else
    .error "ValueError: Index contains duplicate entries, cannot reshape"

/-- Look up a pivot cell by row label then column label: `some c` when the
pivot has the row and the column, with `c` the cell's content. -/
def pivotLookup (p : List (Rat × List (Int × Option Rat))) (l : Rat) (kk : Int) :
    Option (Option Rat) :=
  (p.find? (fun pr => decide (pr.1 = l))).bind fun pr =>
    (pr.2.find? (fun c => decide (c.1 = kk))).map Prod.snd

/-- The literal `0.39` of the source, as the exact rational 39/100. -/
def lambdaLo : Rat := ⟨39, 100, by decide, by decide⟩

/-- The literal `0.41` of the source, as the exact rational 41/100. -/
def lambdaHi : Rat := ⟨41, 100, by decide, by decide⟩

theorem lambdaLo_eq_div : lambdaLo = 39 / 100 := by
  rw [show lambdaLo = (⟨39, 100, by decide, by decide⟩ : Rat) from rfl,
    Rat.mk'_eq_divInt, Rat.divInt_eq_div]
  norm_num

theorem lambdaHi_eq_div : lambdaHi = 41 / 100 := by
  rw [show lambdaHi = (⟨41, 100, by decide, by decide⟩ : Rat) from rfl,
    Rat.mk'_eq_divInt, Rat.divInt_eq_div]
  norm_num

/-- `self.data['lambda'].between(0.39, 0.41)` conjoined with
`self.data['k'] == 3`: pandas `between` is inclusive at both endpoints. -/
def isDefaultConfigRow (r : SensRow) : Bool :=
  decide (r.k = 3) && decide (lambdaLo ≤ r.lam) && decide (r.lam ≤ lambdaHi)

/-- `default_config = self.data[(self.data['k'] == 3) & (self.data['lambda'].between(0.39, 0.41))]`
from `generate_analysis_report`, at the level of rows. -/
def defaultConfig (rows : List SensRow) : List SensRow :=
  rows.filter isDefaultConfigRow

/-- The zero-based DataFrame index labels assigned by `read_csv` (a
`RangeIndex`), paired with the rows: `enumFrom n l` labels `l` from `n`. -/
def enumFrom (n : Nat) : List α → List (Nat × α)
  | [] => []
  | x :: xs => (n, x) :: enumFrom (n + 1) xs

/-- The same `default_config` selection keeping each row's original
zero-based position (its DataFrame index label). -/
def defaultConfigE (rows : List SensRow) : List (Nat × SensRow) :=
  (enumFrom 0 rows).filter (fun p => isDefaultConfigRow p.2)

/-- Ordered insertion by the `MeanMakespan` key. -/
def insertByMean (p : Nat × SensRow) : List (Nat × SensRow) → List (Nat × SensRow)
  | [] => [p]
  | q :: qs =>
    if p.2.meanMakespan < q.2.meanMakespan then p :: q :: qs
    else q :: insertByMean p qs

/-- `sorted_data = self.data.sort_values('MeanMakespan')`, on index-labelled
rows: a `MeanMakespan`-sorted permutation of the indexed rows.  (pandas'
default quicksort fixes no order among equal keys and no claim depends on
it; we embed a deterministic insertion sort, which delivers exactly what
`sort_values` guarantees — a sorted permutation.) -/
def sortedByMean (rows : List SensRow) : List (Nat × SensRow) :=
  (enumFrom 0 rows).foldr insertByMean []

/-- `sorted_data.head(5)`: the five rows of smallest `MeanMakespan`, with
their original index labels. -/
def top5 (rows : List SensRow) : List (Nat × SensRow) :=
  (sortedByMean rows).take 5

/-- The rank column of the top-5 table: the report writes `f"| {i+1} | ..."`
where `i` is the DataFrame index label produced by `iterrows`, i.e. the
original zero-based row position — not the position in sorted order. -/
def top5RankCells (rows : List SensRow) : List Nat :=
  (top5 rows).map (fun p => p.1 + 1)

/-- `rank = (sorted_data.index == default_config.index[0]).argmax() + 1`:
one plus the position, in `MeanMakespan`-sorted order, of the row whose
index label is `idx`. -/
def rankOfIdx (rows : List SensRow) (idx : Nat) : Nat :=
  ((sortedByMean rows).findIdx (fun p => decide (p.1 = idx))) + 1

/-- The "default configuration (k=3, λ=0.4) analysis" section of
`generate_analysis_report`: emitted (as its rank and the first matching row,
which determine every line printed) iff the `default_config` selection is
nonempty. -/
def defaultSection (rows : List SensRow) : Option (Nat × SensRow) :=
  match defaultConfigE rows with
  | [] => none
  | p :: _ => some (rankOfIdx rows p.1, p.2)

/-! ## Auto-discovery of the sensitivity CSV (`SensitivityPlotter.__init__`) -/

/-- `max(files, key=os.path.getctime)` over the glob matches, modelled as
(name, creation time) pairs in glob order; Python `max` keeps the first
element among ties. `FileNotFoundError` is raised exactly when the glob
matches nothing. -/
def maxStep (best x : String × Nat) : String × Nat :=
  if x.2 > best.2 then x else best

def autoDiscover (files : List (String × Nat)) : Except String String :=
  match files with
  | [] => .error "FileNotFoundError: 未找到sensitivity_results_*.csv文件"
  | f :: rest => .ok (rest.foldl maxStep f).1

/-! ## Outermost error handling (`main` of each script) -/

/-- A raised Python exception, split as the handlers split it. -/
inductive PyExc where
  | fileNotFound (msg : String)
  | other (msg : String)
deriving DecidableEq, Repr

/-- What a finished process shows: its printed log and its exit status. -/
structure RunResult where
  log : List String
  exitCode : Nat
deriving DecidableEq, Repr

/-- The diagnostic trace printed by `traceback.print_exc()`. -/
def tracebackLine (msg : String) : String :=
  "Traceback (most recent call last): " ++ msg

/-- `main` of `plot_sensitivity.py`, as a function of the outcome of its
`try` body: `except FileNotFoundError` prints the error and a hint,
`except Exception` prints the error and the full traceback.  Both handlers
fall off the end of `main`, so the interpreter exits with status 0 in every
case — no handler re-raises or calls `sys.exit`. -/
def sensitivityMain (body : Except PyExc Unit) : RunResult :=
  match body with
  | .ok _ => ⟨["✅ 全部完成！"], 0⟩
  | .error (.fileNotFound m) =>
    ⟨["❌ 错误: " ++ m, "请先运行ParameterSensitivityTest.java生成数据文件"], 0⟩
  | .error (.other m) => ⟨["❌ 发生错误: " ++ m, tracebackLine m], 0⟩

/-- `main` of `plot_convergence.py`: no `try` at all, so the body's outcome
is the process's outcome — an exception propagates out of `main`. -/
def convergenceMain (body : Except PyExc Unit) : Except PyExc RunResult :=
  body.map (fun _ => ⟨["✅ 全部完成！"], 0⟩)

/-- The interpreter's exit status for a script run: 0 when `main` returned,
1 when an exception escaped uncaught. -/
def processExit : Except PyExc RunResult → Nat
  | .ok r => r.exitCode
  | .error _ => 1

/-! ## Lemmas about the loader -/

/-- Tag a file's rows with a seed. -/
def tagWith (s : Int) (rows : List ConvRow) : List ConvRecord :=
  rows.map (fun r => ⟨r.iteration, r.fitness, s⟩)

theorem tagFiles_ok (fs : List (String × List ConvRow))
    (hp : ∀ f ∈ fs, (seedOfStem f.1).isSome) :
    ∃ rows, tagFiles fs = .ok rows ∧
      rows.length = (fs.map (fun f => f.2.length)).sum ∧
      ∀ f ∈ fs, ∀ s, seedOfStem f.1 = some s → ∀ r ∈ f.2,
        (⟨r.iteration, r.fitness, s⟩ : ConvRecord) ∈ rows := by
  induction fs with
  | nil => exact ⟨[], rfl, rfl, by simp⟩
  | cons f fs ih =>
    have hf : (seedOfStem f.1).isSome := hp f (List.mem_cons_self _ _)
    obtain ⟨s, hs⟩ := Option.isSome_iff_exists.mp hf
    obtain ⟨rest, hrest, hlen, hmem⟩ := ih (fun g hg => hp g (List.mem_cons_of_mem _ hg))
    refine ⟨tagWith s f.2 ++ rest, ?_, ?_, ?_⟩
    · simp only [tagFiles, hs, hrest, tagWith]
    · simp [tagWith, hlen]
    · intro g hg s' hs' r hr
      rcases List.mem_cons.mp hg with hgf | hgt
      · subst hgf
        rw [hs] at hs'
        cases hs'
        exact List.mem_append_left _ (List.mem_map.mpr ⟨r, hr, rfl⟩)
      · exact List.mem_append_right _ (hmem g hgt s' hs' r hr)

theorem tagFiles_err (fs : List (String × List ConvRow))
    (hbad : ∃ f ∈ fs, seedOfStem f.1 = none) :
    ∃ e, tagFiles fs = .error e := by
  induction fs with
  | nil => simp at hbad
  | cons f fs ih =>
    obtain ⟨g, hg, hgnone⟩ := hbad
    rcases List.mem_cons.mp hg with hgf | hgt
    · subst hgf
      exact ⟨"ValueError: invalid literal for int() with base 10",
        by simp only [tagFiles, hgnone]⟩
    · cases h : seedOfStem f.1 with
      | none => exact ⟨"ValueError: invalid literal for int() with base 10",
          by simp only [tagFiles, h]⟩
      | some s =>
        obtain ⟨e, he⟩ := ih ⟨g, hgt, hgnone⟩
        exact ⟨e, by simp only [tagFiles, h, he]⟩

theorem sum_const_lengths (fs : List (String × List ConvRow)) (K : Nat)
    (hK : ∀ f ∈ fs, f.2.length = K) :
    (fs.map (fun f => f.2.length)).sum = fs.length * K := by
  induction fs with
  | nil => simp
  | cons f fs ih =>
    have h1 : f.2.length = K := hK f (List.mem_cons_self _ _)
    have h2 := ih (fun g hg => hK g (List.mem_cons_of_mem _ hg))
    simp [h1, h2, Nat.succ_mul, Nat.add_comm]

/-- C1: concrete instance — two seed files of two rows each. -/
def sampleFilesC1 : List (String × List ConvRow) :=
  [("convergence_CBO_M100_seed1", [⟨0, 100⟩, ⟨1, 90⟩]),
   ("convergence_CBO_M100_seed2", [⟨0, 110⟩, ⟨1, 95⟩])]

end ICBO

namespace ICBO

/-- C1: for N matched seed-files with K iteration rows each, all of whose
name suffixes after `'seed'` parse as integers, `load_convergence_data`
returns a concatenated table of exactly N×K rows, and every row originating
from a given file carries a `Seed` equal to the integer parsed from that
file's name suffix. -/
theorem claim_C1_load_concat (files : List (String × List ConvRow)) (K : Nat)
    (hne : files ≠ [])
    (hparse : ∀ f ∈ files, (seedOfStem f.1).isSome)
    (hK : ∀ f ∈ files, f.2.length = K) :
    ∃ rows, loadConvergenceData files = .ok (some rows) ∧
      rows.length = files.length * K ∧
      ∀ f ∈ files, ∀ s, seedOfStem f.1 = some s → ∀ r ∈ f.2,
        (⟨r.iteration, r.fitness, s⟩ : ConvRecord) ∈ rows := by
  obtain ⟨rows, hok, hlen, hmem⟩ := tagFiles_ok files hparse
  refine ⟨rows, ?_, ?_, hmem⟩
  · cases files with
    | nil => exact absurd rfl hne
    | cons f fs => simp only [loadConvergenceData, hok, Except.map]
  · rw [hlen]
    exact sum_const_lengths files K hK

/-- C1 witness: two seed files with two rows each load to a 2×2 = 4 row
table with the parsed seeds. -/
theorem claim_C1_load_concat_witness :
    ∃ rows, loadConvergenceData sampleFilesC1 = .ok (some rows) ∧
      rows.length = sampleFilesC1.length * 2 ∧
      ∀ f ∈ sampleFilesC1, ∀ s, seedOfStem f.1 = some s → ∀ r ∈ f.2,
        (⟨r.iteration, r.fitness, s⟩ : ConvRecord) ∈ rows :=
  claim_C1_load_concat sampleFilesC1 2 (by decide) (by decide) (by decide)

/-- C10 counterexample: the file stem `convergence_CBO_M100_seed+5` has the
suffix `"+5"` after `'seed'`, which is not purely numeric, yet
`load_convergence_data` succeeds on it and assigns `Seed = 5` — so the
loader does not succeed *only* on purely numeric suffixes. -/
theorem claim_C10_counterexample :
    (lastSeedChunk "convergence_CBO_M100_seed+5").toList.all Char.isDigit = false ∧
      loadConvergenceData [("convergence_CBO_M100_seed+5", [⟨0, 100⟩])] =
        .ok (some [⟨0, 100, 5⟩]) := by
  constructor
  · decide
  · decide

/-- C10 (amended): `load_convergence_data` raises an uncaught `ValueError`
exactly when some matched file's stem suffix after the last `'seed'` is not
a string accepted by Python `int()` (optional surrounding whitespace,
optional sign, digits with optional underscore separators); it succeeds in
assigning `Seed` whenever every matched file's suffix is such a literal —
which includes suffixes that are not purely numeric, such as `"+5"`. -/
theorem claim_C10_seed_parse_errors (files : List (String × List ConvRow))
    (hne : files ≠ []) :
    ((∃ e, loadConvergenceData files = .error e) ↔
      ∃ f ∈ files, seedOfStem f.1 = none) := by
  constructor
  · intro ⟨e, he⟩
    by_contra hno
    push_neg at hno
    have hp : ∀ f ∈ files, (seedOfStem f.1).isSome := by
      intro f hf
      cases h : seedOfStem f.1 with
      | none => exact absurd h (hno f hf)
      | some s => rfl
    obtain ⟨rows, hok, -, -⟩ := tagFiles_ok files hp
    cases files with
    | nil => exact absurd rfl hne
    | cons f fs =>
      simp only [loadConvergenceData, hok, Except.map] at he
      exact Except.noConfusion he
  · intro hbad
    obtain ⟨e, he⟩ := tagFiles_err files hbad
    cases files with
    | nil => exact absurd rfl hne
    | cons f fs => exact ⟨e, by simp only [loadConvergenceData, he, Except.map]⟩

/-- C10 witness: a file set with one unparsable suffix (`"seedx"`) makes the
loader raise, and the characterization confirms it. -/
theorem claim_C10_seed_parse_errors_witness :
    (∃ e, loadConvergenceData
        [("convergence_CBO_M100_seed1", [(⟨0, 100⟩ : ConvRow)]),
         ("convergence_CBO_M100_seedx", [⟨0, 100⟩])] = .error e) :=
  (claim_C10_seed_parse_errors _ (by decide)).mpr
    ⟨("convergence_CBO_M100_seedx", [⟨0, 100⟩]), by decide, by decide⟩

/-- C5 counterexample: when the body of `plot_sensitivity.py`'s `main`
raises a non-`FileNotFoundError` exception, the outer handler does log the
full diagnostic trace — but the process then exits with status 0, not with
a non-zero status as the claim states. -/
theorem claim_C5_counterexample :
    tracebackLine "boom" ∈ (sensitivityMain (.error (.other "boom"))).log ∧
      (sensitivityMain (.error (.other "boom"))).exitCode = 0 := by
  constructor
  · simp [sensitivityMain, tracebackLine]
  · rfl

/-- C5 (amended): a non-`FileNotFoundError` exception raised during report
or plot generation is caught at the outermost level of the
sensitivity-report script's `main`, a full diagnostic trace is logged, and
the process then exits *successfully* (status 0), the handler swallowing
the exception; the convergence script has no such outer handler, so the
same exception propagates uncaught and terminates that process immediately
with a non-zero status. -/
theorem claim_C5_outer_handler (m : String) :
    (sensitivityMain (.error (.other m))).exitCode = 0 ∧
      tracebackLine m ∈ (sensitivityMain (.error (.other m))).log ∧
      convergenceMain (.error (.other m)) = .error (.other m) ∧
      processExit (convergenceMain (.error (.other m))) = 1 := by
  refine ⟨rfl, ?_, rfl, rfl⟩
  simp [sensitivityMain]

/-- C5 witness: the amended behaviour at the concrete message `"boom"`. -/
theorem claim_C5_outer_handler_witness :
    (sensitivityMain (.error (.other "boom"))).exitCode = 0 ∧
      tracebackLine "boom" ∈ (sensitivityMain (.error (.other "boom"))).log ∧
      convergenceMain (.error (.other "boom")) = .error (.other "boom") ∧
      processExit (convergenceMain (.error (.other "boom"))) = 1 :=
  claim_C5_outer_handler "boom"

/-! ## C6: auto-discovery of the latest sensitivity CSV -/

theorem foldl_maxCtime (l : List (String × Nat)) (acc : String × Nat) :
    (l.foldl maxStep acc) ∈ acc :: l ∧
      acc.2 ≤ (l.foldl maxStep acc).2 ∧
      ∀ g ∈ l, g.2 ≤ (l.foldl maxStep acc).2 := by
  induction l generalizing acc with
  | nil => exact ⟨List.mem_cons_self _ _, le_refl _, by simp⟩
  | cons x xs ih =>
    simp only [List.foldl_cons]
    by_cases hx : x.2 > acc.2
    · rw [show maxStep acc x = x from if_pos hx]
      obtain ⟨hmem, hacc, hall⟩ := ih x
      refine ⟨List.mem_cons_of_mem _ hmem, le_trans (le_of_lt hx) hacc, ?_⟩
      intro g hg
      rcases List.mem_cons.mp hg with h | h
      · rw [h]; exact hacc
      · exact hall g h
    · rw [show maxStep acc x = acc from if_neg hx]
      obtain ⟨hmem, hacc, hall⟩ := ih acc
      refine ⟨?_, hacc, ?_⟩
      · rcases List.mem_cons.mp hmem with h | h
        · rw [h]; exact List.mem_cons_self _ _
        · exact List.mem_cons_of_mem _ (List.mem_cons_of_mem _ h)
      · intro g hg
        rcases List.mem_cons.mp hg with h | h
        · rw [h]; exact le_trans (le_of_not_lt hx) hacc
        · exact hall g h

/-- C6: `SensitivityPlotter.__init__` without an explicit `data_file` raises
`FileNotFoundError` exactly when no file matches
`sensitivity_results_*.csv`; otherwise it selects (and raises for no other
reason) a matched file whose creation timestamp is maximal among all
matches. -/
theorem claim_C6_auto_discover (files : List (String × Nat)) :
    (files = [] →
      autoDiscover files = .error "FileNotFoundError: 未找到sensitivity_results_*.csv文件") ∧
    (files ≠ [] → ∃ f, autoDiscover files = .ok f.1 ∧ f ∈ files ∧
      ∀ g ∈ files, g.2 ≤ f.2) := by
  constructor
  · intro h
    subst h
    rfl
  · intro hne
    cases files with
    | nil => exact absurd rfl hne
    | cons f rest =>
      obtain ⟨hmem, hacc, hall⟩ := foldl_maxCtime rest f
      refine ⟨rest.foldl maxStep f, rfl, ?_, ?_⟩
      · rcases List.mem_cons.mp hmem with h | h
        · rw [h]; exact List.mem_cons_self _ _
        · exact List.mem_cons_of_mem _ h
      · intro g hg
        rcases List.mem_cons.mp hg with h | h
        · rw [h]; exact hacc
        · exact hall g h

/-- C6 witness: among three files the one of largest creation time is
chosen, and the empty glob result raises. -/
theorem claim_C6_auto_discover_witness :
    autoDiscover [] = .error "FileNotFoundError: 未找到sensitivity_results_*.csv文件" ∧
    ∃ f, autoDiscover [("sensitivity_results_a.csv", 5), ("sensitivity_results_b.csv", 9),
        ("sensitivity_results_c.csv", 3)] = .ok f.1 ∧
      f ∈ [("sensitivity_results_a.csv", 5), ("sensitivity_results_b.csv", 9),
        ("sensitivity_results_c.csv", 3)] ∧
      ∀ g ∈ [("sensitivity_results_a.csv", 5), ("sensitivity_results_b.csv", 9),
        ("sensitivity_results_c.csv", 3)], g.2 ≤ f.2 :=
  ⟨(claim_C6_auto_discover []).1 rfl,
   (claim_C6_auto_discover _).2 (by decide)⟩

/-! ## C7: algorithms with no data are skipped everywhere -/

theorem comparisonElems_skip (fs : String → List (String × List ConvRow)) (alg : String)
    (h : loadConvergenceData (fs alg) = .ok none) (algs : List String) :
    comparisonElems fs algs = comparisonElems fs (algs.filter (fun a => decide (a ≠ alg))) := by
  induction algs with
  | nil => rfl
  | cons a rest ih =>
    simp only [List.filter_cons]
    by_cases ha : a = alg
    · subst ha
      rw [if_neg (by simp)]
      simp only [comparisonElems, h]
      exact ih
    · rw [if_pos (by simp [ha])]
      cases hl : loadConvergenceData (fs a) with
      | error e => simp only [comparisonElems, hl]
      | ok o =>
        cases o with
        | none => simp only [comparisonElems, hl]; exact ih
        | some data => simp only [comparisonElems, hl, ih]

theorem reportRows_skip (fs : String → List (String × List ConvRow)) (alg : String)
    (h : loadConvergenceData (fs alg) = .ok none) (algs : List String) :
    reportRows fs algs = reportRows fs (algs.filter (fun a => decide (a ≠ alg))) := by
  induction algs with
  | nil => rfl
  | cons a rest ih =>
    simp only [List.filter_cons]
    by_cases ha : a = alg
    · subst ha
      rw [if_neg (by simp)]
      simp only [reportRows, h]
      exact ih
    · rw [if_pos (by simp [ha])]
      cases hl : loadConvergenceData (fs a) with
      | error e => simp only [reportRows, hl]
      | ok o =>
        cases o with
        | none => simp only [reportRows, hl]; exact ih
        | some data => simp only [reportRows, hl, ih]

theorem comparisonElems_names (fs : String → List (String × List ConvRow))
    (algs : List String) (res : List (String × List (Int × Rat)))
    (h : comparisonElems fs algs = .ok res) : ∀ e ∈ res, e.1 ∈ algs := by
  induction algs generalizing res with
  | nil =>
    cases h
    simp
  | cons a rest ih =>
    intro e he
    rw [show comparisonElems fs (a :: rest) = match loadConvergenceData (fs a) with
        | .error e => .error e
        | .ok none => comparisonElems fs rest
        | .ok (some data) =>
          (comparisonElems fs rest).map
            (((a, (iterationsOf data).map fun i => (i, meanAt data i))) :: ·)
      from rfl] at h
    cases hl : loadConvergenceData (fs a) with
    | error msg => rw [hl] at h; exact Except.noConfusion h
    | ok o =>
      cases o with
      | none =>
        rw [hl] at h
        exact List.mem_cons_of_mem _ (ih res h e he)
      | some data =>
        rw [hl] at h
        cases hr : comparisonElems fs rest with
        | error msg => rw [hr] at h; exact Except.noConfusion h
        | ok res' =>
          rw [hr] at h
          cases h
          rcases List.mem_cons.mp he with hh | hh
          · rw [hh]; exact List.mem_cons_self _ _
          · exact List.mem_cons_of_mem _ (ih res' hr e hh)

theorem reportRows_names (fs : String → List (String × List ConvRow))
    (algs : List String) (res : List (String × String))
    (h : reportRows fs algs = .ok res) : ∀ e ∈ res, e.1 ∈ algs := by
  induction algs generalizing res with
  | nil =>
    cases h
    simp
  | cons a rest ih =>
    intro e he
    rw [show reportRows fs (a :: rest) = match loadConvergenceData (fs a) with
        | .error e => .error e
        | .ok none => reportRows fs rest
        | .ok (some data) => (reportRows fs rest).map ((a, reportRow a data) :: ·)
      from rfl] at h
    cases hl : loadConvergenceData (fs a) with
    | error msg => rw [hl] at h; exact Except.noConfusion h
    | ok o =>
      cases o with
      | none =>
        rw [hl] at h
        exact List.mem_cons_of_mem _ (ih res h e he)
      | some data =>
        rw [hl] at h
        cases hr : reportRows fs rest with
        | error msg => rw [hr] at h; exact Except.noConfusion h
        | ok res' =>
          rw [hr] at h
          cases h
          rcases List.mem_cons.mp he with hh | hh
          · rw [hh]; exact List.mem_cons_self _ _
          · exact List.mem_cons_of_mem _ (ih res' hr e hh)

/-- C7: when no file matches an algorithm's naming pattern,
`load_convergence_data` returns `None` without raising; the
single-algorithm plot emits no figure; and the comparison plot and the
Markdown report behave exactly as if the algorithm were dropped from the
configured list — in particular no curve, band, or table row (not even a
placeholder) is emitted for it, while the remaining algorithms are
processed unchanged. -/
theorem claim_C7_missing_skipped (fs : String → List (String × List ConvRow))
    (algs : List String) (alg : String) (h : fs alg = []) :
    loadConvergenceData (fs alg) = .ok none ∧
    plotSingleAlgorithm fs alg = .ok none ∧
    comparisonElems fs algs = comparisonElems fs (algs.filter (fun a => decide (a ≠ alg))) ∧
    reportRows fs algs = reportRows fs (algs.filter (fun a => decide (a ≠ alg))) ∧
    (∀ res, comparisonElems fs algs = .ok res → ∀ e ∈ res, e.1 ≠ alg) ∧
    (∀ res, reportRows fs algs = .ok res → ∀ e ∈ res, e.1 ≠ alg) := by
  have hload : loadConvergenceData (fs alg) = .ok none := by rw [h]; rfl
  refine ⟨hload, ?_, comparisonElems_skip fs alg hload algs,
    reportRows_skip fs alg hload algs, ?_, ?_⟩
  · simp only [plotSingleAlgorithm, hload]
  · intro res hres e he
    have := comparisonElems_names fs _ res
      ((comparisonElems_skip fs alg hload algs) ▸ hres) e he
    have hmem := List.mem_filter.mp this
    simpa using hmem.2
  · intro res hres e he
    have := reportRows_names fs _ res
      ((reportRows_skip fs alg hload algs) ▸ hres) e he
    have hmem := List.mem_filter.mp this
    simpa using hmem.2

/-- C7 concrete filesystem: `GWO` has no files, `CBO` has one seed file. -/
def sampleFsC7 : String → List (String × List ConvRow) :=
  fun a => if a = "CBO" then [("convergence_CBO_M100_seed1", [⟨0, 100⟩, ⟨1, 90⟩])] else []

/-- C7 witness: with data for `CBO` only, `GWO` is skipped by the loader,
both plots and the report. -/
theorem claim_C7_missing_skipped_witness :
    loadConvergenceData (sampleFsC7 "GWO") = .ok none ∧
    plotSingleAlgorithm sampleFsC7 "GWO" = .ok none ∧
    comparisonElems sampleFsC7 ["CBO", "GWO"] =
      comparisonElems sampleFsC7 (["CBO", "GWO"].filter (fun a => decide (a ≠ "GWO"))) ∧
    reportRows sampleFsC7 ["CBO", "GWO"] =
      reportRows sampleFsC7 (["CBO", "GWO"].filter (fun a => decide (a ≠ "GWO"))) ∧
    (∀ res, comparisonElems sampleFsC7 ["CBO", "GWO"] = .ok res → ∀ e ∈ res, e.1 ≠ "GWO") ∧
    (∀ res, reportRows sampleFsC7 ["CBO", "GWO"] = .ok res → ∀ e ∈ res, e.1 ≠ "GWO") :=
  claim_C7_missing_skipped sampleFsC7 ["CBO", "GWO"] "GWO" (by decide)

/-! ## Sorted-distinct-key lemmas (pandas `groupby` / `pivot` labels) -/

theorem mem_insUnique [LinearOrder α] (x y : α) (l : List α) :
    y ∈ insUnique x l ↔ y = x ∨ y ∈ l := by
  induction l with
  | nil => simp [insUnique]
  | cons z zs ih =>
    by_cases h1 : x < z
    · rw [insUnique, if_pos h1]
      simp [or_comm, or_assoc, or_left_comm]
    · by_cases h2 : x = z
      · subst h2
        rw [insUnique, if_neg h1, if_pos rfl]
        constructor
        · exact fun h => Or.inr h
        · intro h
          rcases h with h | h
          · rw [h]; exact List.mem_cons_self _ _
          · exact h
      · rw [insUnique, if_neg h1, if_neg h2]
        simp only [List.mem_cons, ih]
        tauto

theorem sorted_insUnique [LinearOrder α] (x : α) {l : List α}
    (h : l.Sorted (· < ·)) : (insUnique x l).Sorted (· < ·) := by
  induction l with
  | nil => simp [insUnique]
  | cons z zs ih =>
    obtain ⟨hz, hzs⟩ := List.sorted_cons.mp h
    by_cases h1 : x < z
    · rw [insUnique, if_pos h1]
      refine List.sorted_cons.mpr ⟨?_, h⟩
      intro b hb
      rcases List.mem_cons.mp hb with hb | hb
      · rw [hb]; exact h1
      · exact lt_trans h1 (hz b hb)
    · by_cases h2 : x = z
      · rw [insUnique, if_neg h1, if_pos h2]; exact h
      · rw [insUnique, if_neg h1, if_neg h2]
        refine List.sorted_cons.mpr ⟨?_, ih hzs⟩
        intro b hb
        rcases (mem_insUnique x b zs).mp hb with hb | hb
        · rw [hb]
          exact lt_of_le_of_ne (le_of_not_lt h1) (fun hzx => h2 hzx.symm)
        · exact hz b hb

theorem sorted_sortedUnique [LinearOrder α] (l : List α) :
    (sortedUnique l).Sorted (· < ·) := by
  induction l with
  | nil => simp [sortedUnique]
  | cons x xs ih => exact sorted_insUnique x ih

theorem mem_sortedUnique [LinearOrder α] (y : α) (l : List α) :
    y ∈ sortedUnique l ↔ y ∈ l := by
  induction l with
  | nil => simp [sortedUnique]
  | cons x xs ih =>
    show y ∈ insUnique x (sortedUnique xs) ↔ _
    rw [mem_insUnique, ih]
    simp

theorem getLastD_mem_of_ne_nil : ∀ {l : List α}, l ≠ [] → ∀ d, l.getLastD d ∈ l := by
  intro l
  induction l with
  | nil => intro h; exact absurd rfl h
  | cons x xs ih =>
    intro _ d
    cases hx : xs with
    | nil => simp
    | cons y ys =>
      rw [List.getLastD_cons]
      subst hx
      exact List.mem_cons_of_mem _ (ih (by simp) x)

theorem headD_sorted_min [LinearOrder α] {l : List α} (hs : l.Sorted (· < ·))
    {y : α} (hy : y ∈ l) (d : α) : l.headD d ≤ y := by
  cases l with
  | nil => simp at hy
  | cons z zs =>
    rcases List.mem_cons.mp hy with h | h
    · subst h; simp
    · exact le_of_lt ((List.sorted_cons.mp hs).1 y h)

theorem le_getLastD_sorted [LinearOrder α] :
    ∀ {l : List α}, l.Sorted (· < ·) → ∀ {y : α}, y ∈ l → ∀ d, y ≤ l.getLastD d := by
  intro l
  induction l with
  | nil => intro _ y hy; simp at hy
  | cons z zs ih =>
    intro hs y hy d
    rw [List.getLastD_cons]
    obtain ⟨hz, hzs⟩ := List.sorted_cons.mp hs
    rcases List.mem_cons.mp hy with h | h
    · cases hx : zs with
      | nil => rw [h]; simp
      | cons w ws =>
        rw [h]
        subst hx
        exact le_of_lt (lt_of_lt_of_le (hz _ (getLastD_mem_of_ne_nil (by simp) z))
          (le_refl _))
    · exact ih hzs h z

theorem getLastD_map_ne_nil (f : α → β) :
    ∀ {l : List α}, l ≠ [] → ∀ (d : β) (d' : α), (l.map f).getLastD d = f (l.getLastD d') := by
  intro l
  induction l with
  | nil => intro h; exact absurd rfl h
  | cons x xs ih =>
    intro _ d d'
    cases hx : xs with
    | nil => simp
    | cons y ys =>
      subst hx
      rw [List.map_cons, List.getLastD_cons, List.getLastD_cons]
      exact ih (by simp) (f x) x

/-- `mean_data.iloc[0]` is the mean at the minimum iteration value. -/
theorem initialMean_eq_min (data : List ConvRecord) (m : Int)
    (hmem : m ∈ data.map (·.iteration))
    (hmin : ∀ i ∈ data.map (·.iteration), m ≤ i) :
    initialMean data = meanAt data m := by
  have hm : m ∈ iterationsOf data := (mem_sortedUnique _ _).mpr hmem
  cases hL : iterationsOf data with
  | nil => rw [hL] at hm; simp at hm
  | cons i is =>
    have hsorted : (iterationsOf data).Sorted (· < ·) := sorted_sortedUnique _
    have h1 : i ≤ m := by
      have hh := headD_sorted_min hsorted hm 0
      rw [hL] at hh
      simpa using hh
    have hi_mem : i ∈ iterationsOf data := by
      rw [hL]; exact List.mem_cons_self _ _
    have h2 : m ≤ i := hmin i ((mem_sortedUnique _ _).mp hi_mem)
    have him : i = m := le_antisymm h1 h2
    rw [initialMean, meanSeries, hL]
    simp [him]

/-- `mean_data.iloc[-1]` is the mean at the maximum iteration value. -/
theorem finalMean_eq_max (data : List ConvRecord) (M : Int)
    (hmem : M ∈ data.map (·.iteration))
    (hmax : ∀ i ∈ data.map (·.iteration), i ≤ M) :
    finalMean data = meanAt data M := by
  have hM : M ∈ iterationsOf data := (mem_sortedUnique _ _).mpr hmem
  have hLne : iterationsOf data ≠ [] := List.ne_nil_of_mem hM
  have hsorted : (iterationsOf data).Sorted (· < ·) := sorted_sortedUnique _
  set g := (iterationsOf data).getLastD 0 with hg
  have h1 : M ≤ g := le_getLastD_sorted hsorted hM 0
  have h2 : g ≤ M := by
    apply hmax
    apply (mem_sortedUnique _ _).mp
    exact getLastD_mem_of_ne_nil hLne 0
  have hgM : g = M := le_antisymm h2 h1
  rw [finalMean, meanSeries, getLastD_map_ne_nil _ hLne 0 0, ← hg, hgM]

/-- Sample convergence table: two seeds over iterations 0 and 1, with
per-iteration means 100 and 80. -/
def sampleConv : List ConvRecord :=
  [⟨0, 90, 1⟩, ⟨1, 70, 1⟩, ⟨0, 110, 2⟩, ⟨1, 90, 2⟩]

/-- C2: the convergence-speed value of the report row equals
(initial_mean − mean at position ⌊K/2⌋ of the K-entry per-iteration mean
series) / (initial_mean − final_mean) × 100, where initial_mean and
final_mean are the means at the first (smallest) and last (largest)
iteration; the division carries no guard, so the hypothesis
initial_mean ≠ final_mean is the claim's precondition for the value to be
well-defined. -/
theorem claim_C2_convergence_speed (data : List ConvRecord) (m M : Int)
    (hm : m ∈ data.map (·.iteration))
    (hmin : ∀ i ∈ data.map (·.iteration), m ≤ i)
    (hM : M ∈ data.map (·.iteration))
    (hmax : ∀ i ∈ data.map (·.iteration), i ≤ M)
    (_hne : meanAt data m ≠ meanAt data M) :
    halfImprovementPct data =
      (meanAt data m - (meanSeries data).getD ((meanSeries data).length / 2) 0) /
        (meanAt data m - meanAt data M) * 100 := by
  rw [halfImprovementPct, halfPoint, initialMean_eq_min data m hm hmin,
    finalMean_eq_max data M hM hmax]

/-- C2 witness: on `sampleConv` (means 100 then 80, K = 2, midpoint index
1), the reported convergence speed is the claimed formula's value. -/
theorem claim_C2_convergence_speed_witness :
    halfImprovementPct sampleConv =
      (meanAt sampleConv 0 - (meanSeries sampleConv).getD
          ((meanSeries sampleConv).length / 2) 0) /
        (meanAt sampleConv 0 - meanAt sampleConv 1) * 100 :=
  claim_C2_convergence_speed sampleConv 0 1 (by decide) (by decide) (by decide)
    (by decide)
    (by norm_num [meanAt, fitnessAt, sampleConv, List.filter])

/-- Evaluation of the fixed-point rendering at the claim's example value. -/
theorem fmtPct2_twenty : fmtPct2 20 = "20.00%" := by
  have h : round ((20 : Rat) * 100) = 2000 := by norm_num
  simp only [fmtPct2, fmt2, h]
  decide

/-- C8: the total-improvement value of the report row equals
(initial_mean − final_mean) / initial_mean × 100 with initial_mean and
final_mean the per-seed means of the first (smallest) and last (largest)
iteration; and whenever initial_mean = 100 and final_mean = 80, the
rendered report cell is exactly "20.00%". -/
theorem claim_C8_total_improvement (data : List ConvRecord) (m M : Int)
    (hm : m ∈ data.map (·.iteration))
    (hmin : ∀ i ∈ data.map (·.iteration), m ≤ i)
    (hM : M ∈ data.map (·.iteration))
    (hmax : ∀ i ∈ data.map (·.iteration), i ≤ M) :
    improvementPct data = (meanAt data m - meanAt data M) / meanAt data m * 100 ∧
      (initialMean data = 100 → finalMean data = 80 →
        fmtPct2 (improvementPct data) = "20.00%") := by
  constructor
  · rw [improvementPct, initialMean_eq_min data m hm hmin,
      finalMean_eq_max data M hM hmax]
  · intro h100 h80
    rw [improvementPct, h100, h80]
    norm_num
    exact fmtPct2_twenty

/-- C8 witness: on `sampleConv` the report's total improvement is
(100 − 80) / 100 × 100 and the rendered cell is "20.00%". -/
theorem claim_C8_total_improvement_witness :
    improvementPct sampleConv =
      (meanAt sampleConv 0 - meanAt sampleConv 1) / meanAt sampleConv 0 * 100 ∧
      fmtPct2 (improvementPct sampleConv) = "20.00%" := by
  obtain ⟨h1, h2⟩ := claim_C8_total_improvement sampleConv 0 1 (by decide)
    (by decide) (by decide) (by decide)
  refine ⟨h1, h2 ?_ ?_⟩
  · norm_num [initialMean, meanSeries, iterationsOf, sortedUnique, insUnique,
      meanAt, fitnessAt, sampleConv, List.filter]
  · norm_num [finalMean, meanSeries, iterationsOf, sortedUnique, insUnique,
      meanAt, fitnessAt, sampleConv, List.filter]

/-! ## C3: the reference-configuration lookup -/

/-- C3 sample table: it has a (k=3, λ=0.41) row, no λ=0.40 row, a k=3 row
with λ=0.5 outside the window, and a k=2 row with λ=0.41 (wrong k). -/
def sampleC3 : List SensRow :=
  [⟨3, ⟨1, 2, by decide, by decide⟩, 60, 1, 2, 55, 65⟩,
   ⟨3, lambdaHi, 20, 2, 3, 4, 5⟩,
   ⟨2, lambdaHi, 10, 1, 1, 9, 11⟩]

/-- C3: the `default_config` lookup of `generate_analysis_report` selects
exactly the rows with k = 3 and λ in the inclusive tolerance window
[0.39, 0.41]; on a table containing (k=3, λ=0.41) but no λ=0.40 row, the
lookup resolves to that row and the default-configuration section is
emitted for it (with its rank in `MeanMakespan` order — here 2 of 3). -/
theorem claim_C3_default_lookup (rows : List SensRow) (r : SensRow) :
    (r ∈ defaultConfig rows ↔
      r ∈ rows ∧ r.k = 3 ∧ 39 / 100 ≤ r.lam ∧ r.lam ≤ 41 / 100) ∧
    defaultSection sampleC3 = some (2, ⟨3, lambdaHi, 20, 2, 3, 4, 5⟩) := by
  constructor
  · rw [defaultConfig, List.mem_filter]
    simp only [isDefaultConfigRow, Bool.and_eq_true, decide_eq_true_eq,
      lambdaLo_eq_div, lambdaHi_eq_div, and_assoc]
  · decide

/-- C3 witness: the characterization at the sample's λ=0.41 row, plus the
emitted section for it. -/
theorem claim_C3_default_lookup_witness :
    ((⟨3, lambdaHi, 20, 2, 3, 4, 5⟩ : SensRow) ∈ defaultConfig sampleC3 ↔
      (⟨3, lambdaHi, 20, 2, 3, 4, 5⟩ : SensRow) ∈ sampleC3 ∧
        (3 : Int) = 3 ∧ (39 : Rat) / 100 ≤ lambdaHi ∧ lambdaHi ≤ 41 / 100) ∧
    defaultSection sampleC3 = some (2, ⟨3, lambdaHi, 20, 2, 3, 4, 5⟩) :=
  claim_C3_default_lookup sampleC3 ⟨3, lambdaHi, 20, 2, 3, 4, 5⟩

/-! ## C4: the heatmap pivot -/

theorem map_fst_pairs (l : List α) (g : α → β) :
    (l.map fun a => (a, g a)).map Prod.fst = l := by
  induction l with
  | nil => rfl
  | cons a as ih => simp [ih]

theorem find?_map_pair [DecidableEq α] (l : List α) (g : α → β) (x : α) (hx : x ∈ l) :
    (l.map fun a => (a, g a)).find? (fun pr => decide (pr.1 = x)) = some (x, g x) := by
  induction l with
  | nil => simp at hx
  | cons a as ih =>
    rw [List.map_cons]
    by_cases ha : a = x
    · subst ha
      exact List.find?_cons_of_pos _ (by simp)
    · rw [List.find?_cons_of_neg _ (by simp [ha])]
      exact ih (by rcases List.mem_cons.mp hx with h | h; exact absurd h.symm ha; exact h)

/-- A table whose (λ, k) pairs are duplicate-free never confuses the
`find?`-based cell lookup: the first row matching a present row's pair is
that row itself. -/
theorem find?_rows_of_pairsNodup (rows : List SensRow) (r : SensRow)
    (hnd : (rows.map fun x => (x.lam, x.k)).Nodup) (hr : r ∈ rows) :
    rows.find? (fun x => decide (x.lam = r.lam) && decide (x.k = r.k)) = some r := by
  induction rows with
  | nil => simp at hr
  | cons a as ih =>
    rw [List.map_cons, List.nodup_cons] at hnd
    rcases List.mem_cons.mp hr with h | h
    · subst h
      exact List.find?_cons_of_pos _ (by simp)
    · by_cases hpred : a.lam = r.lam ∧ a.k = r.k
      · exfalso
        apply hnd.1
        rw [hpred.1, hpred.2]
        exact List.mem_map.mpr ⟨r, h, rfl⟩
      · rw [List.find?_cons_of_neg _ (by simpa using hpred)]
        exact ih hnd.2 h

/-- C4 sample table: three distinct (k, λ) pairs (λ values 1 and 2 stand in
for the grid's λ values; only distinctness matters to the pivot). -/
def sampleC4 : List SensRow :=
  [⟨2, 1, 50, 1, 1, 1, 1⟩, ⟨3, 1, 40, 1, 1, 1, 1⟩, ⟨2, 2, 30, 1, 1, 1, 1⟩]

/-- C4 duplicate sample: the (k=2, λ=1) pair occurs twice. -/
def sampleC4dup : List SensRow :=
  [⟨2, 1, 50, 1, 1, 1, 1⟩, ⟨2, 1, 40, 1, 1, 1, 1⟩]

/-- C4: when every (k, λ) pair appears at most once, the pandas pivot built
by the heatmap plotters succeeds, with exactly one row per distinct λ and
one column per distinct k present in the table, and the cell at (λ, k)
holds that pair's metric value for every source row; when some (k, λ) pair
is duplicated, the pivot fails explicitly (`ValueError`). -/
theorem claim_C4_pivot (rows : List SensRow) (metric : SensRow → Rat) :
    ((rows.map fun r => (r.lam, r.k)).Nodup →
      ∃ p, pivot rows metric = .ok p ∧
        p.map Prod.fst = sortedUnique (rows.map (·.lam)) ∧
        (p.map Prod.fst).Nodup ∧
        (∀ l, l ∈ p.map Prod.fst ↔ l ∈ rows.map (·.lam)) ∧
        (∀ pr ∈ p, pr.2.map Prod.fst = sortedUnique (rows.map (·.k)) ∧
          (pr.2.map Prod.fst).Nodup ∧
          ∀ kk, kk ∈ pr.2.map Prod.fst ↔ kk ∈ rows.map (·.k)) ∧
        (∀ r ∈ rows, pivotLookup p r.lam r.k = some (some (metric r)))) ∧
    (¬ (rows.map fun r => (r.lam, r.k)).Nodup →
      ∃ e, pivot rows metric = .error e) := by
  constructor
  · intro hnd
    refine ⟨(sortedUnique (rows.map (·.lam))).map fun l =>
      (l, (sortedUnique (rows.map (·.k))).map fun kk => (kk, pivotCell rows metric l kk)),
      by rw [pivot, if_pos hnd], ?_, ?_, ?_, ?_, ?_⟩
    · exact map_fst_pairs _ _
    · rw [map_fst_pairs]
      exact (sorted_sortedUnique _).imp (fun h => ne_of_lt h)
    · intro l
      rw [map_fst_pairs]
      exact mem_sortedUnique l (rows.map (·.lam))
    · intro pr hpr
      obtain ⟨l, hl, hpr'⟩ := List.mem_map.mp hpr
      have h2 : pr.2 = (sortedUnique (rows.map (·.k))).map
          fun kk => (kk, pivotCell rows metric l kk) := by rw [← hpr']
      rw [h2, map_fst_pairs]
      refine ⟨rfl, (sorted_sortedUnique _).imp (fun h => ne_of_lt h), ?_⟩
      intro kk
      exact mem_sortedUnique kk (rows.map (·.k))
    · intro r hr
      have hlmem : r.lam ∈ sortedUnique (rows.map (·.lam)) :=
        (mem_sortedUnique _ _).mpr (List.mem_map.mpr ⟨r, hr, rfl⟩)
      have hkmem : r.k ∈ sortedUnique (rows.map (·.k)) :=
        (mem_sortedUnique _ _).mpr (List.mem_map.mpr ⟨r, hr, rfl⟩)
      have e1 := find?_map_pair (sortedUnique (rows.map (·.lam)))
        (fun l => (sortedUnique (rows.map (·.k))).map
          fun kk => (kk, pivotCell rows metric l kk)) r.lam hlmem
      have e2 := find?_map_pair (sortedUnique (rows.map (·.k)))
        (fun kk => pivotCell rows metric r.lam kk) r.k hkmem
      have e3 := find?_rows_of_pairsNodup rows r hnd hr
      rw [pivotLookup]
      simp only [pivotCell] at e1 e2 ⊢
      simp only [e1, Option.some_bind, e2, Option.map_some', e3]
  · intro hnd
    exact ⟨_, by rw [pivot, if_neg hnd]⟩

/-- C4 witness: on the three-row sample the pivot succeeds with the stated
shape, and on the duplicated sample it raises. -/
theorem claim_C4_pivot_witness :
    (∃ p, pivot sampleC4 (fun r => r.meanMakespan) = .ok p ∧
      p.map Prod.fst = sortedUnique (sampleC4.map (·.lam)) ∧
      (p.map Prod.fst).Nodup ∧
      (∀ l, l ∈ p.map Prod.fst ↔ l ∈ sampleC4.map (·.lam)) ∧
      (∀ pr ∈ p, pr.2.map Prod.fst = sortedUnique (sampleC4.map (·.k)) ∧
        (pr.2.map Prod.fst).Nodup ∧
        ∀ kk, kk ∈ pr.2.map Prod.fst ↔ kk ∈ sampleC4.map (·.k)) ∧
      (∀ r ∈ sampleC4, pivotLookup p r.lam r.k = some (some r.meanMakespan))) ∧
    (∃ e, pivot sampleC4dup (fun r => r.meanMakespan) = .error e) :=
  ⟨(claim_C4_pivot sampleC4 (fun r => r.meanMakespan)).1 (by decide),
   (claim_C4_pivot sampleC4dup (fun r => r.meanMakespan)).2 (by decide)⟩

/-! ## C9: the rank column of the top-5 table -/

theorem enumFrom_mem : ∀ {l : List α} {n i : Nat} {x : α},
    (i, x) ∈ enumFrom n l → n ≤ i ∧ i - n < l.length ∧ ∀ d, l.getD (i - n) d = x := by
  intro l
  induction l with
  | nil => intro n i x h; simp [enumFrom] at h
  | cons y ys ih =>
    intro n i x h
    rw [enumFrom] at h
    rcases List.mem_cons.mp h with h | h
    · obtain ⟨hi, hx⟩ : i = n ∧ x = y := by simpa using h
      subst hi
      subst hx
      refine ⟨le_refl _, by simp, ?_⟩
      intro d
      simp [Nat.sub_self]
    · obtain ⟨h1, h2, h3⟩ := ih h
      refine ⟨by omega, by simp only [List.length_cons]; omega, ?_⟩
      intro d
      have hin : i - n = (i - (n + 1)) + 1 := by omega
      rw [hin, List.getD_cons_succ]
      exact h3 d

theorem insertByMean_perm (p : Nat × SensRow) (l : List (Nat × SensRow)) :
    (insertByMean p l).Perm (p :: l) := by
  induction l with
  | nil => exact List.Perm.refl _
  | cons q qs ih =>
    rw [insertByMean]
    by_cases h : p.2.meanMakespan < q.2.meanMakespan
    · rw [if_pos h]
    · rw [if_neg h]
      exact (ih.cons q).trans (List.Perm.swap p q qs)

theorem foldr_insertByMean_perm (l : List (Nat × SensRow)) :
    (l.foldr insertByMean []).Perm l := by
  induction l with
  | nil => exact List.Perm.refl _
  | cons x xs ih =>
    exact (insertByMean_perm x (xs.foldr insertByMean [])).trans (ih.cons x)

/-- The key ordering of `sort_values('MeanMakespan')`. -/
def meanLE (a b : Nat × SensRow) : Prop :=
  a.2.meanMakespan ≤ b.2.meanMakespan

theorem insertByMean_sorted (p : Nat × SensRow) (l : List (Nat × SensRow))
    (h : l.Pairwise meanLE) : (insertByMean p l).Pairwise meanLE := by
  induction l with
  | nil => simp [insertByMean]
  | cons q qs ih =>
    obtain ⟨hq, hqs⟩ := List.pairwise_cons.mp h
    rw [insertByMean]
    by_cases hc : p.2.meanMakespan < q.2.meanMakespan
    · rw [if_pos hc]
      refine List.pairwise_cons.mpr ⟨?_, h⟩
      intro b hb
      rcases List.mem_cons.mp hb with hb | hb
      · rw [hb]; exact le_of_lt hc
      · exact le_trans (le_of_lt hc) (hq b hb)
    · rw [if_neg hc]
      refine List.pairwise_cons.mpr ⟨?_, ih hqs⟩
      intro b hb
      have hb' : b ∈ p :: qs := (insertByMean_perm p qs).mem_iff.mp hb
      rcases List.mem_cons.mp hb' with hb'' | hb''
      · rw [hb'']; exact le_of_not_lt hc
      · exact hq b hb''

theorem sortedByMean_sorted (rows : List SensRow) :
    (sortedByMean rows).Pairwise meanLE := by
  rw [sortedByMean]
  induction enumFrom 0 rows with
  | nil => exact List.Pairwise.nil
  | cons x xs ih => exact insertByMean_sorted x _ ih

/-- C9 sample table: strictly decreasing `MeanMakespan`, so the sorted
order reverses the CSV order. -/
def sampleC9 : List SensRow :=
  [⟨2, 1, 60, 1, 1, 1, 1⟩, ⟨3, 1, 50, 1, 1, 1, 1⟩, ⟨4, 1, 40, 1, 1, 1, 1⟩,
   ⟨2, 2, 30, 1, 1, 1, 1⟩, ⟨3, 2, 20, 1, 1, 1, 1⟩, ⟨4, 2, 10, 1, 1, 1, 1⟩]

/-- C9: in the top-5 table of the sensitivity report, every selected entry
carries its original zero-based CSV position as index (so the printed rank
cell `i+1` is the CSV position plus one, not the position in sorted order),
and the five selected rows are genuinely no larger in `MeanMakespan` than
every row left out; on the descending sample the rank column reads
[6, 5, 4, 3, 2], not [1, 2, 3, 4, 5]. -/
theorem claim_C9_rank_is_csv_position (rows : List SensRow) :
    (∀ p ∈ top5 rows, p.1 < rows.length ∧ ∀ d, rows.getD p.1 d = p.2) ∧
    (∀ p ∈ top5 rows, ∀ q ∈ (sortedByMean rows).drop 5,
      p.2.meanMakespan ≤ q.2.meanMakespan) ∧
    top5RankCells sampleC9 = [6, 5, 4, 3, 2] ∧
    top5RankCells sampleC9 ≠ [1, 2, 3, 4, 5] := by
  refine ⟨?_, ?_, by decide, by decide⟩
  · rintro ⟨i, x⟩ hp
    have h1 : (i, x) ∈ sortedByMean rows := List.mem_of_mem_take hp
    have h2 : (i, x) ∈ enumFrom 0 rows :=
      (foldr_insertByMean_perm _).mem_iff.mp h1
    obtain ⟨-, hlen, hget⟩ := enumFrom_mem h2
    rw [Nat.sub_zero] at hlen hget
    exact ⟨hlen, hget⟩
  · intro p hp q hq
    have hs : (sortedByMean rows).Pairwise meanLE := sortedByMean_sorted rows
    rw [← List.take_append_drop 5 (sortedByMean rows)] at hs
    exact (List.pairwise_append.mp hs).2.2 p hp q hq

/-- C9 witness: the instantiation at the descending sample. -/
theorem claim_C9_rank_is_csv_position_witness :
    (∀ p ∈ top5 sampleC9, p.1 < sampleC9.length ∧ ∀ d, sampleC9.getD p.1 d = p.2) ∧
    (∀ p ∈ top5 sampleC9, ∀ q ∈ (sortedByMean sampleC9).drop 5,
      p.2.meanMakespan ≤ q.2.meanMakespan) ∧
    top5RankCells sampleC9 = [6, 5, 4, 3, 2] ∧
    top5RankCells sampleC9 ≠ [1, 2, 3, 4, 5] :=
  claim_C9_rank_is_csv_position sampleC9

end ICBO
